import Mathlib

/-!
Verification development for the CogScheduler repository.

The repository ships a React frontend, a SQL schema, and an end-to-end
integration script; the FastAPI scheduling backend itself is not part of the
checked-in sources. The backend components (load estimator, energy curve,
fatigue accumulator, availability builder, placement loop, stress cap,
recalibrator, config endpoint) are therefore modelled from the specification,
faithfully following its formulas and edge-case policies; the frontend pieces
(gamification level table, onboarding wizard finalization) are embedded
directly from the JavaScript sources.

All real-valued quantities are modelled as rationals; clock times are minutes
since midnight.
-/

unseal Rat.mul Rat.add Rat.sub Rat.inv

namespace CogScheduler

/-- Clamp a rational into the interval from lo to hi. -/
def clampQ (lo hi x : ℚ) : ℚ := max lo (min hi x)

/-- Modelled from the spec: engine configuration keys and their defaults
(spec section on configuration keys); the backend holding them is absent from
src. Break durations and the quantum are integer minute counts. -/
structure Config where
  sleep_baseline : ℚ := 15 / 2
  fatigue_consec_weight : ℚ := 2 / 5
  fatigue_total_weight : ℚ := 3 / 10
  consec_threshold_min : ℚ := 90
  total_deep_threshold_min : ℚ := 180
  short_break_trigger_min : ℚ := 90
  short_break_duration : Nat := 10
  long_break_duration : Nat := 15
  fatigue_force_break : ℚ := 3 / 4
  stress_cap_threshold : Nat := 4
  max_load_under_stress : ℚ := 6
  lecture_penalty_per : ℚ := 1 / 20
  break_recovery_factor : ℚ := 2 / 5
  quantum_min : Nat := 25
  deep_work_load_threshold : ℚ := 6
deriving DecidableEq

/-- Default configuration snapshot. -/
def defaultConfig : Config := {}

/-- Value of a decimal digit character, if it is one. -/
def digitVal (c : Char) : Option Nat :=
  if c.isDigit then some (c.toNat - 48) else none

/-- Combine four digit characters into minutes since midnight, checking ranges. -/
def parseClock (h1 h2 m1 m2 : Char) : Option Nat :=
  match digitVal h1, digitVal h2, digitVal m1, digitVal m2 with
  | some a, some b, some c, some d =>
    let hh := 10 * a + b
    let mm := 10 * c + d
    if hh < 24 && mm < 60 then some (60 * hh + mm) else none
  | _, _, _, _ => none

/-- Modelled from the spec: the clock utility parsing an HH:MM string into
minutes since midnight; the backend clock module is absent from src. -/
def parseHHMM (str : String) : Option Nat :=
  match str.data with
  | [h1, h2, ':', m1, m2] => parseClock h1 h2 m1 m2
  | _ => none

/-- A busy interval carried from a commitment or preferred break:
start minute, end minute, display label. -/
structure Busy where
  s : Nat
  e : Nat
  label : String
deriving DecidableEq

/-- Modelled from the spec: parsing of an "HH:MM-HH:MM label" commitment
string (label empty for a bare "HH:MM-HH:MM" break preference); the backend
parser is absent from src. -/
def parseCommitment (str : String) : Option Busy :=
  match str.data with
  | h1 :: h2 :: ':' :: m1 :: m2 :: '-' :: h3 :: h4 :: ':' :: m3 :: m4 :: rest =>
    match parseClock h1 h2 m1 m2, parseClock h3 h4 m3 m4, rest with
    | some a, some b, [] => some ⟨a, b, ""⟩
    | some a, some b, ' ' :: ls => some ⟨a, b, String.mk ls⟩
    | _, _, _ => none
  | _ => none

/-- Canonical input task record. -/
structure Task where
  title : String
  category : String
  difficulty : ℚ
  duration_minutes : Nat
  cognitive_load : Option ℚ
deriving DecidableEq

/-- Modelled from the spec: the default category weight table with domain
overrides (math/programming/science higher, reading/review lower); the
backend table is absent from src, the exact values are part of config. -/
def categoryWeightTable : List (String × ℚ) :=
  [("math", 13 / 10), ("programming", 13 / 10), ("science", 6 / 5),
   ("reading", 4 / 5), ("review", 7 / 10)]

/-- Category weight lookup with the unknown-category fallback of 1.0. -/
def categoryWeight (c : String) : ℚ :=
  match categoryWeightTable.lookup c with
  | some w => w
  | none => 1

/-- Modelled from the spec: the cognitive-load estimator of section 4.1;
the backend estimator is absent from src. A supplied load is clamped to
[0,10]; otherwise the difficulty/category/lecture formula is used, clamped. -/
def estimateLoad (cfg : Config) (lectures : Nat) (t : Task) : ℚ :=
  match t.cognitive_load with
  | some l => clampQ 0 10 l
  | none =>
    clampQ 0 10 (t.difficulty * categoryWeight t.category
      + (lectures : ℚ) * cfg.lecture_penalty_per)

/-- Chronotype-dependent peak hour of the circadian baseline, in minutes:
early 10:00, normal 11:00, late 15:00. -/
def chronoPeak (c : String) : Nat :=
  if c = "early" then 600 else if c = "late" then 900 else 660

/-- Distance between two minute values. -/
def natDist (a b : Nat) : Nat := (a - b) + (b - a)

/-- Modelled from the spec: the circadian baseline, a curve with values in
[0.4, 1.0] peaking at the chronotype-dependent hour; the spec deliberately
abstracts the exact shape, so a piecewise-linear tent realizes it here. -/
def circadian (peak t : Nat) : ℚ :=
  max (2 / 5) (1 - (3 / 5) * (natDist t peak : ℚ) / 720)

/-- Profile fields of a scheduling request relevant to the engine. -/
structure ScheduleRequest where
  tasks : List Task
  sleep_hours : ℚ
  stress_level : Nat
  chronotype : String
  lectures_today : Nat
  available_from : String
  available_to : String
  breaks_at : List String
  daily_commitments : List String
deriving DecidableEq

/-- Modelled from the spec: the energy curve of section 4.2, a sleep-debt
multiplier times the circadian baseline minus an affine stress penalty, all
clamped into [0,1]; the backend energy module is absent from src. -/
def energyAt (cfg : Config) (req : ScheduleRequest) (t : Nat) : ℚ :=
  let sdm := clampQ (3 / 5) (11 / 10) (req.sleep_hours / cfg.sleep_baseline)
  clampQ 0 1 (sdm * circadian (chronoPeak req.chronotype) t
    - (3 / 100) * ((req.stress_level : ℚ) - 1))

/-- Fatigue accumulator state of section 4.3: consecutive deep-work minutes,
cumulative deep-work minutes, and the fatigue scalar. -/
structure FatigueState where
  consec : Nat
  total : Nat
  F : ℚ
deriving DecidableEq

/-- Modelled from the spec: the fatigue update for an appended work quantum
of duration d, section 4.3; the backend fatigue module is absent from src. -/
def applyWork (cfg : Config) (load : ℚ) (d : Nat) (st : FatigueState) : FatigueState :=
  let deep := decide (cfg.deep_work_load_threshold ≤ load)
  let consec := if deep then st.consec + d else 0
  let total := if deep then st.total + d else st.total
  { consec := consec, total := total,
    F := clampQ 0 1 (cfg.fatigue_consec_weight * ((consec : ℚ) / cfg.consec_threshold_min)
      + cfg.fatigue_total_weight * ((total : ℚ) / cfg.total_deep_threshold_min)) }

/-- Modelled from the spec: the fatigue update for an appended break block of
duration b minutes, section 4.3; consec resets, F recovers multiplicatively. -/
def applyBreak (cfg : Config) (b : Nat) (st : FatigueState) : FatigueState :=
  { consec := 0, total := st.total,
    F := max 0 (st.F * (1 - cfg.break_recovery_factor
      * min 1 ((b : ℚ) / (cfg.long_break_duration : ℚ)))) }

/-- Modelled from the spec: the force-break predicate of section 4.3. -/
def forceBreakP (cfg : Config) (st : FatigueState) : Bool :=
  decide (cfg.fatigue_force_break ≤ st.F)
    || decide (cfg.short_break_trigger_min ≤ (st.consec : ℚ))

/-- Modelled from the spec: forced-break duration choice of section 4.5 step
D.3 - long break when the total deep-work threshold is reached, else short. -/
def breakLen (cfg : Config) (st : FatigueState) : Nat :=
  if cfg.total_deep_threshold_min ≤ (st.total : ℚ) then cfg.long_break_duration
  else cfg.short_break_duration

/-- An output block: title, start and end minute, load, energy and fatigue at
start, break flag, and a one-line explanation. -/
structure Block where
  task_title : String
  start_m : Nat
  end_m : Nat
  cognitive_load : ℚ
  energy_at_start : ℚ
  fatigue_at_start : ℚ
  is_break : Bool
  explanation : String
deriving DecidableEq

/-- One-line placement explanation synthesized from energy and fatigue. -/
def workExplanation (en fa : ℚ) : String :=
  if (7 : ℚ) / 10 ≤ en ∧ fa ≤ 3 / 10 then
    "high energy, low fatigue - ideal for deep focus"
  else if (1 : ℚ) / 2 ≤ fa then "scheduled while fatigue is elevated"
  else "steady focus window"

/-- A work quantum: title, cognitive load, length in minutes. -/
structure Quantum where
  title : String
  load : ℚ
  len : Nat
deriving DecidableEq

/-- Block emitted for a fixed commitment or preferred break reached by the
cursor: it covers the busy interval exactly, as a zero-load break. -/
def mkBusyBlock (E : Nat → ℚ) (fat : FatigueState) (b : Busy) : Block :=
  ⟨b.label, b.s, b.e, 0, E b.s, fat.F, true, "fixed commitment honored"⟩

/-- Block emitted for a forced break of duration bd starting at t. -/
def mkBreakBlock (E : Nat → ℚ) (fat : FatigueState) (t bd : Nat) : Block :=
  ⟨"Break", t, t + bd, 0, E t, fat.F, true, "forced break for recovery"⟩

/-- Block emitted for a work quantum placed at t. -/
def mkWorkBlock (E : Nat → ℚ) (fat : FatigueState) (t : Nat) (q : Quantum) : Block :=
  ⟨q.title, t, t + q.len, q.load, E t, fat.F, false, workExplanation (E t) fat.F⟩

/-- Clamp a busy interval to the scheduling window, dropping it when nothing
remains (the spec ignores commitments strictly outside the window). -/
def clampBusy (wf wt : Nat) (b : Busy) : Option Busy :=
  if max wf b.s < min wt b.e then some ⟨max wf b.s, min wt b.e, b.label⟩ else none

/-- Insertion step of the start-time insertion sort for busy intervals. -/
def insertBusy (a : Busy) : List Busy → List Busy
  | [] => [a]
  | b :: l => if a.s ≤ b.s then a :: b :: l else b :: insertBusy a l

/-- Sort busy intervals by start time. -/
def sortBusy : List Busy → List Busy
  | [] => []
  | a :: l => insertBusy a (sortBusy l)

/-- Merge a start-sorted run of busy intervals, coalescing overlapping ones;
the later label wins for display, as the spec's edge-case policy says. -/
def mergeBusy : Busy → List Busy → List Busy
  | cur, [] => [cur]
  | cur, b :: l =>
    if b.s ≤ cur.e then mergeBusy ⟨cur.s, max cur.e b.e, b.label⟩ l
    else cur :: mergeBusy b l

/-- Modelled from the spec: the availability builder normalization of section
4.4 - parse, clamp to the window, sort, merge overlapping; the backend
availability module is absent from src. -/
def normalizeBusy (wf wt : Nat) (raw : List Busy) : List Busy :=
  match sortBusy (raw.filterMap (clampBusy wf wt)) with
  | [] => []
  | b :: l => mergeBusy b l

/-- A busy interval lying inside the window with positive length. -/
def GoodBusy (wf wt : Nat) (b : Busy) : Prop :=
  wf ≤ b.s ∧ b.s < b.e ∧ b.e ≤ wt

/-- Busy intervals in separated chain form: each ends before the next starts. -/
def SepChain (l : List Busy) : Prop :=
  List.Chain' (fun x y => x.e ≤ y.s) l

/-- Descending composite order of section 4.5 step A: primary cognitive load,
secondary difficulty, input order preserved by a stable insertion sort. -/
def taskLE (a b : Task × ℚ) : Bool :=
  decide (b.2 < a.2) || (decide (a.2 = b.2) && decide (b.1.difficulty ≤ a.1.difficulty))

/-- Insertion step of the stable task sort. -/
def insertTask (a : Task × ℚ) : List (Task × ℚ) → List (Task × ℚ)
  | [] => [a]
  | b :: l => if taskLE a b then a :: b :: l else b :: insertTask a l

/-- Modelled from the spec: task ordering of section 4.5 step A; the backend
scheduler is absent from src. -/
def sortTasks : List (Task × ℚ) → List (Task × ℚ)
  | [] => []
  | a :: l => insertTask a (sortTasks l)

/-- Warning text tagging an over-cap task kept under the stress cap. -/
def stressTag (t : Task) : String :=
  "Stress cap: high-load task kept and tagged: " ++ t.title

/-- Modelled from the spec: the stress cap of section 4.5 step B, choice (i) -
when stress reaches the threshold, tasks whose load exceeds the cap are kept
in place in the queue and tagged with a warning; nothing is dropped or
deferred. The backend scheduler is absent from src. -/
def applyStressCap (cfg : Config) (stress : Nat) (queue : List (Task × ℚ)) :
    List (Task × ℚ) × List String :=
  (queue,
    if cfg.stress_cap_threshold ≤ stress then
      (queue.filter (fun p => decide (cfg.max_load_under_stress < p.2))).map
        (fun p => stressTag p.1)
    else [])

/-- Modelled from the spec: the quantum split of section 4.5 step C - a task
becomes ceil(duration / quantum) quanta, duration rounded up, each quantum of
the configured length; the backend scheduler is absent from src. -/
def quantaOf (cfg : Config) (p : Task × ℚ) : List Quantum :=
  List.replicate ((p.1.duration_minutes + cfg.quantum_min - 1) / cfg.quantum_min)
    ⟨p.1.title, p.2, cfg.quantum_min⟩

/-- Modelled from the spec: the placement loop of section 4.5 step D. The
cursor t advances through the window; a commitment or preferred break reached
by the cursor is emitted verbatim and acts as a break for the fatigue state;
a forced break is inserted when the force-break predicate holds; a quantum is
emitted when it fits before the next busy interval and the window end,
otherwise the cursor jumps to the next free interval; when the window is
exhausted with quanta remaining, the loop stops and reports truncation. Fuel
bounds the recursion; the backend scheduler is absent from src. -/
def placeLoop (cfg : Config) (E : Nat → ℚ) (wt : Nat) :
    Nat → Nat → List Busy → List Quantum → FatigueState → List Block × Bool
  | 0, _, _, quanta, _ => ([], !quanta.isEmpty)
  | _ + 1, _, _, [], _ => ([], false)
  | fuel + 1, t, [], q :: qs, fat =>
    if wt ≤ t then ([], true)
    else if forceBreakP cfg fat then
      let bd := breakLen cfg fat
      if t + bd ≤ wt then
        let r := placeLoop cfg E wt fuel (t + bd) [] (q :: qs) (applyBreak cfg bd fat)
        (mkBreakBlock E fat t bd :: r.1, r.2)
      else placeLoop cfg E wt fuel wt [] (q :: qs) fat
    else if t + q.len ≤ wt then
      let r := placeLoop cfg E wt fuel (t + q.len) [] qs (applyWork cfg q.load q.len fat)
      (mkWorkBlock E fat t q :: r.1, r.2)
    else placeLoop cfg E wt fuel wt [] (q :: qs) fat
  | fuel + 1, t, b :: bs, q :: qs, fat =>
    if wt ≤ t then ([], true)
    else if b.s ≤ t then
      let r := placeLoop cfg E wt fuel b.e bs (q :: qs) (applyBreak cfg (b.e - b.s) fat)
      (mkBusyBlock E fat b :: r.1, r.2)
    else if forceBreakP cfg fat then
      let bd := breakLen cfg fat
      if t + bd ≤ b.s then
        let r := placeLoop cfg E wt fuel (t + bd) (b :: bs) (q :: qs) (applyBreak cfg bd fat)
        (mkBreakBlock E fat t bd :: r.1, r.2)
      else placeLoop cfg E wt fuel b.s (b :: bs) (q :: qs) fat
    else if t + q.len ≤ b.s then
      let r := placeLoop cfg E wt fuel (t + q.len) (b :: bs) qs (applyWork cfg q.load q.len fat)
      (mkWorkBlock E fat t q :: r.1, r.2)
    else placeLoop cfg E wt fuel b.s (b :: bs) (q :: qs) fat

/-- Error kinds surfaced by the core, from the error handling design. -/
inductive SchedErr where
  | invalidWindow
  | noFreeTime
  | malformedTask
deriving DecidableEq

/-- A produced plan: the ordered block list and the warnings. -/
structure Plan where
  blocks : List Block
  warnings : List String
deriving DecidableEq

/-- Modelled from the spec: task validation for ErrMalformedTask - zero
duration or out-of-range difficulty or supplied load. -/
def malformedTask (t : Task) : Bool :=
  decide (t.duration_minutes = 0) || decide (t.difficulty < 1) || decide (10 < t.difficulty)
    || (match t.cognitive_load with
        | some l => decide (l < 0) || decide (10 < l)
        | none => false)

/-- Busy intervals of a request: parsed daily commitments together with
preferred breaks (labelled "Break"), normalized into the window. -/
def busyOf (req : ScheduleRequest) (wf wt : Nat) : List Busy :=
  normalizeBusy wf wt
    (req.daily_commitments.filterMap parseCommitment ++
      (req.breaks_at.filterMap parseCommitment).map (fun b => ⟨b.s, b.e, "Break"⟩))

/-- Free minutes remaining in the window after subtracting busy intervals. -/
def freeMinutes (wf wt : Nat) (busy : List Busy) : Nat :=
  wt - wf - (busy.map (fun b => b.e - b.s)).sum

/-- Tasks paired with their estimated cognitive loads. -/
def taskLoads (cfg : Config) (req : ScheduleRequest) : List (Task × ℚ) :=
  req.tasks.map (fun t => (t, estimateLoad cfg req.lectures_today t))

/-- The sorted task queue handed to placement. -/
def sortedQueue (cfg : Config) (req : ScheduleRequest) : List (Task × ℚ) :=
  sortTasks (taskLoads cfg req)

/-- Sleep warning of the warnings design: under 5 hours is a burnout risk. -/
def sleepWarnings (req : ScheduleRequest) : List String :=
  if req.sleep_hours < 5 then ["Sleep under 5 hours: burnout risk"] else []

/-- Modelled from the spec: the engine success path - normalize busy
intervals, estimate loads, sort, apply the stress cap, split into quanta, run
the placement loop, and assemble warnings by severity (sleep, stress tags,
truncation); the at-most-six warning cap is not modelled. The backend engine
is absent from src. -/
def buildPlan (cfg : Config) (req : ScheduleRequest) (wf wt : Nat) : Plan :=
  let busy := busyOf req wf wt
  let sc := applyStressCap cfg req.stress_level (sortedQueue cfg req)
  let quanta := sc.1.flatMap (quantaOf cfg)
  let res := placeLoop cfg (energyAt cfg req) wt (wt + busy.length + quanta.length + 1)
    wf busy quanta ⟨0, 0, 0⟩
  { blocks := res.1,
    warnings := sleepWarnings req ++ sc.2 ++
      (if res.2 then ["Not enough time for remaining tasks"] else []) }

/-- Plan for the zero-tasks edge case: empty block list, no warnings. -/
def emptyPlan : Plan := ⟨[], []⟩

/-- Modelled from the spec: the engine façade - validate the window (failure
with ErrInvalidWindow exactly on malformed times or an empty window), validate
tasks, handle the zero-tasks edge case, fail with ErrNoFreeTime when
commitments cover the window, else build the plan. The backend engine is
absent from src. -/
def scheduleEngine (cfg : Config) (req : ScheduleRequest) : Except SchedErr Plan :=
  match parseHHMM req.available_from, parseHHMM req.available_to with
  | some wf, some wt =>
    if wt ≤ wf then .error .invalidWindow
    else if req.tasks.any malformedTask then .error .malformedTask
    else if req.tasks.isEmpty then .ok emptyPlan
    else if freeMinutes wf wt (busyOf req wf wt) = 0 then .error .noFreeTime
    else .ok (buildPlan cfg req wf wt)
  | none, _ => .error .invalidWindow
  | some _, none => .error .invalidWindow

/-- A TLX feedback entry: block index, mental demand and effort on 1-7. -/
structure TLXEntry where
  block_index : Nat
  mental_demand : Nat
  effort : Nat
deriving DecidableEq

/-- Per-user recalibration state: the append-only TLX log and the three
fatigue weights it nudges. -/
structure RecalState where
  entries : List TLXEntry
  fatigue_consec_weight : ℚ
  fatigue_total_weight : ℚ
  fatigue_force_break : ℚ
deriving DecidableEq

/-- Map a 1-7 TLX rating into [0,1] via (x - 1)/6. -/
def tlxMap (x : Nat) : ℚ := ((x : ℚ) - 1) / 6

/-- The last K = min(6, n) entries of the log, the recalibration window. -/
def tlxWindow (entries : List TLXEntry) : List TLXEntry :=
  entries.drop (entries.length - min 6 entries.length)

/-- Average mapped mental demand over the recalibration window. -/
def tlxAvgMd (entries : List TLXEntry) : ℚ :=
  ((tlxWindow entries).map (fun e => tlxMap e.mental_demand)).sum
    / ((tlxWindow entries).length : ℚ)

/-- Average mapped effort over the recalibration window. -/
def tlxAvgEf (entries : List TLXEntry) : ℚ :=
  ((tlxWindow entries).map (fun e => tlxMap e.effort)).sum
    / ((tlxWindow entries).length : ℚ)

/-- Modelled from the spec: the recalibrator of section 4.8 - on every 3rd
appended entry, nudge the two fatigue weights upward with the averaged mapped
demand and effort and the force-break threshold downward, each clamped to its
range, with alpha = beta = 0.05 and baseline 0.5. The backend recalibrator is
absent from src. -/
def appendTLX (st : RecalState) (e : TLXEntry) : RecalState :=
  let entries := st.entries ++ [e]
  if entries.length % 3 = 0 then
    let md := tlxAvgMd entries
    let ef := tlxAvgEf entries
    { entries := entries,
      fatigue_consec_weight :=
        clampQ (1 / 20) (3 / 5) (st.fatigue_consec_weight + (1 / 20) * (md - 1 / 2)),
      fatigue_total_weight :=
        clampQ (1 / 20) (3 / 5) (st.fatigue_total_weight + (1 / 20) * (ef - 1 / 2)),
      fatigue_force_break :=
        clampQ (2 / 5) (9 / 10) (st.fatigue_force_break - (1 / 20) * ((md + ef) / 2 - 1 / 2)) }
  else { st with entries := entries }

/-- Modelled from the spec: the known configuration keys accepted by PUT
/config; the backend config endpoint is absent from src. -/
def knownConfigKeys : List String :=
  ["sleep_baseline", "fatigue_consec_weight", "fatigue_total_weight",
   "consec_threshold_min", "total_deep_threshold_min", "short_break_trigger_min",
   "short_break_duration", "long_break_duration", "fatigue_force_break",
   "stress_cap_threshold", "max_load_under_stress", "lecture_penalty_per",
   "break_recovery_factor", "quantum_min", "deep_work_load_threshold"]

/-- Update one known configuration key; integer keys take the numerator of the
supplied value. Unknown keys leave the record unchanged (the handler rejects
them before this point). -/
def setConfigKey (c : Config) (k : String) (v : ℚ) : Config :=
  if k = "sleep_baseline" then { c with sleep_baseline := v }
  else if k = "fatigue_consec_weight" then { c with fatigue_consec_weight := v }
  else if k = "fatigue_total_weight" then { c with fatigue_total_weight := v }
  else if k = "consec_threshold_min" then { c with consec_threshold_min := v }
  else if k = "total_deep_threshold_min" then { c with total_deep_threshold_min := v }
  else if k = "short_break_trigger_min" then { c with short_break_trigger_min := v }
  else if k = "short_break_duration" then { c with short_break_duration := v.num.toNat }
  else if k = "long_break_duration" then { c with long_break_duration := v.num.toNat }
  else if k = "fatigue_force_break" then { c with fatigue_force_break := v }
  else if k = "stress_cap_threshold" then { c with stress_cap_threshold := v.num.toNat }
  else if k = "max_load_under_stress" then { c with max_load_under_stress := v }
  else if k = "lecture_penalty_per" then { c with lecture_penalty_per := v }
  else if k = "break_recovery_factor" then { c with break_recovery_factor := v }
  else if k = "quantum_min" then { c with quantum_min := v.num.toNat }
  else if k = "deep_work_load_threshold" then { c with deep_work_load_threshold := v }
  else c

/-- Modelled from the spec: the PUT /config handler - accept a subset of the
known keys and apply it, returning status 200 with the updated config; any
unknown key yields status 400 with the stored config untouched. The backend
config endpoint is absent from src. -/
def putConfigHandler (c : Config) (updates : List (String × ℚ)) : Nat × Config :=
  if updates.all (fun kv => knownConfigKeys.contains kv.1) then
    (200, updates.foldl (fun acc kv => setConfigKey acc kv.1 kv.2) c)
  else (400, c)

/-- Level thresholds as laid out in the GamificationCard component. -/
def LEVEL_THRESHOLDS : List Nat := [0, 200, 600, 1200]

/-- Level names as laid out in the GamificationCard component. -/
def LEVEL_NAMES : List String := ["Student", "Scholar", "Genius", "Mastermind"]

/-- Modelled from the spec: the gamification level derived from a plan's xp
by the thresholds 0, 200, 600, 1200; the backend gamification module is
absent from src. -/
def levelFromXp (xp : Nat) : String :=
  if 1200 ≤ xp then "Mastermind"
  else if 600 ≤ xp then "Genius"
  else if 200 ≤ xp then "Scholar"
  else "Student"

/-- Onboarding wizard profile fields relevant to its completion step. -/
structure WizProfile where
  role : String
  daily_commitments : List String
  occupation_busy_slots : List String
  work_hours : String
  lectures_today : Nat
deriving DecidableEq

/-- Substring test matching the JavaScript String.includes call. -/
def containsSub (sub : List Char) : List Char → Bool
  | [] => sub.isEmpty
  | x :: xs => sub.isPrefixOf (x :: xs) || containsSub sub xs

/-- Suffix test matching the JavaScript String.endsWith call. -/
def endsWithStr (suf str : String) : Bool := List.isSuffixOf suf.data str.data

/-- Shallow embedding of the completion branch of OnboardingWizard.next
(frontend source): for students the resolved college hours replace any old
College block and lectures_today is overwritten with the commitment count;
for professionals busy slots and work hours rebuild the commitments and
lectures_today is overwritten likewise; for researchers lectures_today is
overwritten with the commitment count. The collegeHours argument carries the
already-resolved hours string (empty when no college today). -/
def finalizeProfile (p : WizProfile) (collegeHours : String) : WizProfile :=
  if p.role = "student" then
    let dc :=
      if collegeHours ≠ "" then
        (p.daily_commitments.filter (fun c => !endsWithStr " College" c))
          ++ [collegeHours ++ " College"]
      else p.daily_commitments
    { p with daily_commitments := dc, lectures_today := dc.length }
  else if p.role = "professional" then
    let dc1 :=
      if 0 < p.occupation_busy_slots.length then p.occupation_busy_slots
      else p.daily_commitments
    let dc2 :=
      if p.work_hours ≠ "" ∧ p.work_hours ≠ "flexible" then
        (p.work_hours ++ " Work") :: dc1.filter (fun c => !containsSub "Work".data c.data)
      else dc1
    { p with daily_commitments := dc2, lectures_today := dc2.length }
  else if p.role = "researcher" then
    { p with lectures_today := p.daily_commitments.length }
  else p

/-- Blocks chained from a cursor position: each block starts no earlier than
the cursor, is nonempty, and the chain continues from its end. -/
def Chained : Nat → List Block → Prop
  | _, [] => True
  | t, blk :: rest => t ≤ blk.start_m ∧ blk.start_m < blk.end_m ∧ Chained blk.end_m rest

/-- Per-block range invariants: energy and fatigue in [0,1], load in [0,10],
breaks carrying zero load. -/
def GoodBlock (blk : Block) : Prop :=
  0 ≤ blk.energy_at_start ∧ blk.energy_at_start ≤ 1 ∧
    0 ≤ blk.fatigue_at_start ∧ blk.fatigue_at_start ≤ 1 ∧
    0 ≤ blk.cognitive_load ∧ blk.cognitive_load ≤ 10 ∧
    (blk.is_break = true → blk.cognitive_load = 0)

/-- The block covers the busy interval exactly, as a zero-load break carrying
its label. -/
def ExactBusy (blk : Block) (b : Busy) : Prop :=
  blk.task_title = b.label ∧ blk.start_m = b.s ∧ blk.end_m = b.e ∧
    blk.is_break = true ∧ blk.cognitive_load = 0

/-- The block does not overlap the busy interval. -/
def DisjBusy (blk : Block) (b : Busy) : Prop :=
  blk.end_m ≤ b.s ∨ b.e ≤ blk.start_m

/-- Request with one in-window commitment and no tasks at all. -/
def reqNoTasks : ScheduleRequest :=
  { tasks := [], sleep_hours := 7, stress_level := 2, chronotype := "normal",
    lectures_today := 0, available_from := "09:00", available_to := "14:00",
    breaks_at := [], daily_commitments := ["10:00-11:00 Lecture"] }

/-- Sample request exercising work quanta, a commitment, and a preferred
break inside a 09:00-22:00 window. -/
def reqSample : ScheduleRequest :=
  { tasks := [⟨"Graph Theory", "math", 8, 50, some (41 / 5)⟩,
              ⟨"Chem Review", "science", 4, 45, some 3⟩],
    sleep_hours := 7, stress_level := 2, chronotype := "normal",
    lectures_today := 2, available_from := "09:00", available_to := "22:00",
    breaks_at := ["13:00-14:00"], daily_commitments := ["10:00-11:00 Lecture"] }

/-- Stress request of scenario S2: one over-cap task under maximal stress. -/
def reqStress : ScheduleRequest :=
  { tasks := [⟨"Hard Task", "math", 9, 60, some 9⟩],
    sleep_hours := 5, stress_level := 5, chronotype := "normal",
    lectures_today := 4, available_from := "09:00", available_to := "22:00",
    breaks_at := [], daily_commitments := [] }

/-- Task with no supplied load and a category outside the weight table. -/
def taskNoLoad : Task := ⟨"Topology", "geometry", 5, 60, none⟩

/-- Recalibration state holding two entries with default weights. -/
def tlxSt0 : RecalState :=
  ⟨[⟨0, 5, 5⟩, ⟨0, 5, 5⟩], 2 / 5, 3 / 10, 3 / 4⟩

/-- Wizard profile of a student with one extra commitment and a stale
lecture count. -/
def wizSample : WizProfile := ⟨"student", ["16:00-17:00 Gym"], [], "", 7⟩

theorem clampQ_lower (lo hi x : ℚ) : lo ≤ clampQ lo hi x := le_max_left _ _

theorem clampQ_upper (lo hi x : ℚ) (h : lo ≤ hi) : clampQ lo hi x ≤ hi :=
  max_le h (min_le_left _ _)

theorem le_clampQ_of_le {y x hi : ℚ} (lo : ℚ) (hx : y ≤ x) (hy : y ≤ hi) :
    y ≤ clampQ lo hi x :=
  le_max_of_le_right (le_min hy hx)

theorem clampQ_le_of_le {x y lo : ℚ} (hi : ℚ) (hx : x ≤ y) (hlo : lo ≤ y) :
    clampQ lo hi x ≤ y :=
  max_le hlo (le_trans (min_le_right _ _) hx)

theorem estimateLoad_bounds (cfg : Config) (lectures : Nat) (t : Task) :
    0 ≤ estimateLoad cfg lectures t ∧ estimateLoad cfg lectures t ≤ 10 := by
  unfold estimateLoad
  cases t.cognitive_load with
  | none => exact ⟨clampQ_lower _ _ _, clampQ_upper _ _ _ (by norm_num)⟩
  | some l => exact ⟨clampQ_lower _ _ _, clampQ_upper _ _ _ (by norm_num)⟩

theorem energyAt_bounds (cfg : Config) (req : ScheduleRequest) (t : Nat) :
    0 ≤ energyAt cfg req t ∧ energyAt cfg req t ≤ 1 :=
  ⟨clampQ_lower _ _ _, clampQ_upper _ _ _ (by norm_num)⟩

theorem applyWork_F_bounds (cfg : Config) (load : ℚ) (d : Nat) (st : FatigueState) :
    0 ≤ (applyWork cfg load d st).F ∧ (applyWork cfg load d st).F ≤ 1 :=
  ⟨clampQ_lower _ _ _, clampQ_upper _ _ _ (by norm_num)⟩

theorem applyBreak_F_bounds (cfg : Config) (b : Nat) (st : FatigueState)
    (hr : 0 ≤ cfg.break_recovery_factor) (h0 : 0 ≤ st.F) (h1 : st.F ≤ 1) :
    0 ≤ (applyBreak cfg b st).F ∧ (applyBreak cfg b st).F ≤ 1 := by
  unfold applyBreak
  refine ⟨le_max_left _ _, max_le (by norm_num) ?_⟩
  have hm : (0 : ℚ) ≤ min 1 ((b : ℚ) / (cfg.long_break_duration : ℚ)) := by
    have hb : (0 : ℚ) ≤ (b : ℚ) / (cfg.long_break_duration : ℚ) :=
      div_nonneg (by positivity) (by positivity)
    exact le_min (by norm_num) hb
  have hk : 1 - cfg.break_recovery_factor * min 1 ((b : ℚ) / (cfg.long_break_duration : ℚ)) ≤ 1 := by
    nlinarith
  rcases le_or_lt 0 (1 - cfg.break_recovery_factor * min 1 ((b : ℚ) / (cfg.long_break_duration : ℚ))) with hp | hn
  · calc st.F * _ ≤ 1 * 1 := by nlinarith
    _ = 1 := by norm_num
  · nlinarith

theorem breakLen_pos (cfg : Config) (st : FatigueState)
    (hsb : 1 ≤ cfg.short_break_duration) (hlb : 1 ≤ cfg.long_break_duration) :
    1 ≤ breakLen cfg st := by
  unfold breakLen
  split <;> assumption

theorem mem_insertBusy {a x : Busy} {l : List Busy} :
    x ∈ insertBusy a l ↔ x = a ∨ x ∈ l := by
  induction l with
  | nil => simp [insertBusy]
  | cons b l ih =>
    unfold insertBusy
    split
    · simp
    · simp only [List.mem_cons, ih]
      tauto

theorem mem_sortBusy {x : Busy} {l : List Busy} : x ∈ sortBusy l ↔ x ∈ l := by
  induction l with
  | nil => simp [sortBusy]
  | cons b l ih => simp [sortBusy, mem_insertBusy, ih]

theorem chain_insertBusy {a : Busy} {l : List Busy}
    (h : List.Chain' (fun p q => p.s ≤ q.s) l) :
    List.Chain' (fun p q => p.s ≤ q.s) (insertBusy a l) := by
  induction l with
  | nil => simp [insertBusy]
  | cons b l ih =>
    unfold insertBusy
    split
    · exact List.chain'_cons.mpr ⟨by omega, h⟩
    · rename_i hab
      rcases List.chain'_cons'.mp h with ⟨hb, hl⟩
      refine List.chain'_cons'.mpr ⟨?_, ih hl⟩
      intro y hy
      cases l with
      | nil =>
        simp [insertBusy] at hy
        subst hy
        omega
      | cons c l2 =>
        unfold insertBusy at hy
        split at hy
        · simp at hy
          subst hy
          omega
        · simp at hy
          subst hy
          exact hb c rfl

theorem chain_sortBusy (l : List Busy) :
    List.Chain' (fun p q => p.s ≤ q.s) (sortBusy l) := by
  induction l with
  | nil => simp [sortBusy]
  | cons b l ih => exact chain_insertBusy ih

theorem mergeBusy_head {cur : Busy} {l : List Busy} :
    ∃ hd tl, mergeBusy cur l = hd :: tl ∧ hd.s = cur.s := by
  induction l generalizing cur with
  | nil => exact ⟨cur, [], rfl, rfl⟩
  | cons b l ih =>
    unfold mergeBusy
    split
    · exact ih
    · exact ⟨cur, mergeBusy b l, rfl, rfl⟩

theorem mergeBusy_spec {wf wt : Nat} :
    ∀ (l : List Busy) (cur : Busy),
      List.Chain' (fun p q => p.s ≤ q.s) (cur :: l) →
      (∀ x ∈ cur :: l, GoodBusy wf wt x) →
      SepChain (mergeBusy cur l) ∧ ∀ x ∈ mergeBusy cur l, GoodBusy wf wt x := by
  intro l
  induction l with
  | nil =>
    intro cur _ hg
    constructor
    · simp [mergeBusy, SepChain]
    · intro x hx
      simp [mergeBusy] at hx
      subst hx
      exact hg x (by simp)
  | cons b l ih =>
    intro cur hsort hg
    rcases List.chain'_cons.mp hsort with ⟨hcb, hbl⟩
    have hgc := hg cur (by simp)
    have hgb := hg b (by simp)
    unfold mergeBusy
    split
    · rename_i hbs
      have hsort' : List.Chain' (fun p q => p.s ≤ q.s) (⟨cur.s, max cur.e b.e, b.label⟩ :: l) := by
        refine List.chain'_cons'.mpr ⟨?_, (List.chain'_cons'.mp hbl).2⟩
        intro y hy
        have := (List.chain'_cons'.mp hbl).1 y hy
        simpa using le_trans hcb this
      have hgood' : ∀ x ∈ (⟨cur.s, max cur.e b.e, b.label⟩ : Busy) :: l, GoodBusy wf wt x := by
        intro x hx
        rcases List.mem_cons.mp hx with hx | hx
        · subst hx
          rcases hgc with ⟨h1, h2, h3⟩
          rcases hgb with ⟨h4, h5, h6⟩
          refine ⟨h1, ?_, ?_⟩
          · show cur.s < max cur.e b.e
            omega
          · show max cur.e b.e ≤ wt
            omega
        · exact hg x (by simp [hx])
      exact ih _ hsort' hgood'
    · rename_i hbs
      have hrec := ih b hbl (fun x hx => hg x (List.mem_cons_of_mem _ hx))
      rcases @mergeBusy_head b l with ⟨hd, tl, heq, hhd⟩
      constructor
      · refine List.chain'_cons'.mpr ⟨?_, hrec.1⟩
        intro y hy
        rw [heq] at hy
        simp at hy
        subst hy
        omega
      · intro x hx
        rcases List.mem_cons.mp hx with hx | hx
        · subst hx; exact hgc
        · exact hrec.2 x hx

theorem normalizeBusy_spec (wf wt : Nat) (raw : List Busy) :
    SepChain (normalizeBusy wf wt raw) ∧
      ∀ x ∈ normalizeBusy wf wt raw, GoodBusy wf wt x := by
  unfold normalizeBusy
  have hgood : ∀ x ∈ sortBusy (raw.filterMap (clampBusy wf wt)), GoodBusy wf wt x := by
    intro x hx
    rw [mem_sortBusy] at hx
    rcases List.mem_filterMap.mp hx with ⟨b, _, hb⟩
    unfold clampBusy at hb
    split at hb
    · rename_i hlt
      cases hb
      exact ⟨Nat.le_max_left _ _, hlt, Nat.min_le_left _ _⟩
    · cases hb
  have hsort := chain_sortBusy (raw.filterMap (clampBusy wf wt))
  split
  · simp [SepChain]
  · rename_i b l heq
    rw [heq] at hsort hgood
    exact mergeBusy_spec l b hsort hgood

theorem sepChain_all {b : Busy} {bs : List Busy}
    (hchain : SepChain (b :: bs)) (hse : ∀ x ∈ b :: bs, x.s < x.e) :
    ∀ x ∈ bs, b.e ≤ x.s := by
  induction bs generalizing b with
  | nil => simp
  | cons c l ih =>
    rcases List.chain'_cons.mp hchain with ⟨hbc, hcl⟩
    intro x hx
    rcases List.mem_cons.mp hx with hx | hx
    · subst hx; exact hbc
    · have := ih hcl (fun y hy => hse y (List.mem_cons_of_mem _ hy)) x hx
      have hce := hse c (by simp)
      omega

theorem mem_insertTask {a x : Task × ℚ} {l : List (Task × ℚ)} :
    x ∈ insertTask a l ↔ x = a ∨ x ∈ l := by
  induction l with
  | nil => simp [insertTask]
  | cons b l ih =>
    unfold insertTask
    split
    · simp
    · simp only [List.mem_cons, ih]
      tauto

theorem mem_sortTasks {x : Task × ℚ} {l : List (Task × ℚ)} :
    x ∈ sortTasks l ↔ x ∈ l := by
  induction l with
  | nil => simp [sortTasks]
  | cons b l ih => simp [sortTasks, mem_insertTask, ih]

theorem chained_mono {l : List Block} {t t' : Nat} (h : t ≤ t') (hc : Chained t' l) :
    Chained t l := by
  cases l with
  | nil => trivial
  | cons x r =>
    rcases hc with ⟨h1, h2, h3⟩
    exact ⟨le_trans h h1, h2, h3⟩

theorem chained_start {l : List Block} :
    ∀ {t : Nat}, Chained t l → ∀ blk ∈ l, t ≤ blk.start_m := by
  induction l with
  | nil => intro t _ blk hblk; cases hblk
  | cons x r ih =>
    intro t hc blk hblk
    rcases hc with ⟨h1, h2, h3⟩
    rcases List.mem_cons.mp hblk with hblk | hblk
    · subst hblk; exact h1
    · have := ih h3 blk hblk
      omega

theorem chained_chain' {l : List Block} :
    ∀ {t : Nat}, Chained t l →
      (∀ blk ∈ l, blk.start_m < blk.end_m) ∧
        List.Chain' (fun a b => a.end_m ≤ b.start_m) l := by
  induction l with
  | nil => intro t _; exact ⟨by simp, by simp⟩
  | cons x r ih =>
    intro t hc
    rcases hc with ⟨h1, h2, h3⟩
    rcases ih h3 with ⟨ha, hb⟩
    constructor
    · intro blk hblk
      rcases List.mem_cons.mp hblk with hblk | hblk
      · subst hblk; exact h2
      · exact ha blk hblk
    · refine List.chain'_cons'.mpr ⟨?_, hb⟩
      intro y hy
      exact chained_start h3 y (List.mem_of_mem_head? hy)

theorem goodBlock_mkBusy {E : Nat → ℚ} {fat : FatigueState} {b : Busy}
    (hE : ∀ u, 0 ≤ E u ∧ E u ≤ 1) (hF0 : 0 ≤ fat.F) (hF1 : fat.F ≤ 1) :
    GoodBlock (mkBusyBlock E fat b) :=
  ⟨(hE b.s).1, (hE b.s).2, hF0, hF1, le_refl 0, by show (0 : ℚ) ≤ 10; norm_num, fun _ => rfl⟩

theorem goodBlock_mkBreak {E : Nat → ℚ} {fat : FatigueState} {t bd : Nat}
    (hE : ∀ u, 0 ≤ E u ∧ E u ≤ 1) (hF0 : 0 ≤ fat.F) (hF1 : fat.F ≤ 1) :
    GoodBlock (mkBreakBlock E fat t bd) :=
  ⟨(hE t).1, (hE t).2, hF0, hF1, le_refl 0, by show (0 : ℚ) ≤ 10; norm_num, fun _ => rfl⟩

theorem goodBlock_mkWork {E : Nat → ℚ} {fat : FatigueState} {t : Nat} {q : Quantum}
    (hE : ∀ u, 0 ≤ E u ∧ E u ≤ 1) (hF0 : 0 ≤ fat.F) (hF1 : fat.F ≤ 1)
    (hl0 : 0 ≤ q.load) (hl1 : q.load ≤ 10) :
    GoodBlock (mkWorkBlock E fat t q) :=
  ⟨(hE t).1, (hE t).2, hF0, hF1, hl0, hl1, fun h => by cases h⟩

theorem placeLoop_master (cfg : Config) (E : Nat → ℚ) (wt : Nat)
    (hsb : 1 ≤ cfg.short_break_duration) (hlb : 1 ≤ cfg.long_break_duration)
    (hr : 0 ≤ cfg.break_recovery_factor)
    (hE : ∀ u, 0 ≤ E u ∧ E u ≤ 1) :
    ∀ (fuel t : Nat) (busy : List Busy) (quanta : List Quantum) (fat : FatigueState),
      (∀ b ∈ busy, t ≤ b.s) → SepChain busy → (∀ b ∈ busy, b.s < b.e) →
      (∀ x ∈ quanta, 1 ≤ x.len ∧ 0 ≤ x.load ∧ x.load ≤ 10) →
      0 ≤ fat.F → fat.F ≤ 1 →
      Chained t (placeLoop cfg E wt fuel t busy quanta fat).1 ∧
        (∀ blk ∈ (placeLoop cfg E wt fuel t busy quanta fat).1, GoodBlock blk) ∧
        (∀ blk ∈ (placeLoop cfg E wt fuel t busy quanta fat).1,
          ∀ b ∈ busy, ExactBusy blk b ∨ DisjBusy blk b) := by
  intro fuel
  induction fuel with
  | zero =>
    intro t busy quanta fat _ _ _ _ _ _
    refine ⟨trivial, ?_, ?_⟩ <;> simp [placeLoop]
  | succ n ih =>
    intro t busy quanta fat hts hchain hse hq hF0 hF1
    cases quanta with
    | nil =>
      refine ⟨?_, ?_, ?_⟩ <;> simp [placeLoop, Chained]
    | cons q qs =>
      have hq1 := hq q (by simp)
      have hqs : ∀ x ∈ qs, 1 ≤ x.len ∧ 0 ≤ x.load ∧ x.load ≤ 10 :=
        fun x hx => hq x (List.mem_cons_of_mem _ hx)
      cases busy with
      | nil =>
        simp only [placeLoop]
        split_ifs with hwt hfb hfit hqfit
        · exact ⟨trivial, by simp, by simp⟩
        · -- forced break fits before the window end
          have hbr := applyBreak_F_bounds cfg (breakLen cfg fat) fat hr hF0 hF1
          have hrec := ih (t + breakLen cfg fat) [] (q :: qs) (applyBreak cfg (breakLen cfg fat) fat)
            (by simp) (by simp [SepChain]) (by simp) hq hbr.1 hbr.2
          have hbd := breakLen_pos cfg fat hsb hlb
          refine ⟨⟨le_refl t, by simp [mkBreakBlock]; omega, ?_⟩, ?_, ?_⟩
          · exact hrec.1
          · intro blk hblk
            rcases List.mem_cons.mp hblk with hblk | hblk
            · subst hblk; exact goodBlock_mkBreak hE hF0 hF1
            · exact hrec.2.1 blk hblk
          · intro blk _ b hb; cases hb
        · -- forced break does not fit: jump to the window end
          have hrec := ih wt [] (q :: qs) fat (by simp) (by simp [SepChain]) (by simp) hq hF0 hF1
          refine ⟨chained_mono (by omega) hrec.1, hrec.2.1, ?_⟩
          intro blk _ b hb; cases hb
        · -- quantum fits before the window end
          have hwk := applyWork_F_bounds cfg q.load q.len fat
          have hrec := ih (t + q.len) [] qs (applyWork cfg q.load q.len fat)
            (by simp) (by simp [SepChain]) (by simp) hqs hwk.1 hwk.2
          refine ⟨⟨le_refl t, by simp [mkWorkBlock]; omega, ?_⟩, ?_, ?_⟩
          · exact hrec.1
          · intro blk hblk
            rcases List.mem_cons.mp hblk with hblk | hblk
            · subst hblk; exact goodBlock_mkWork hE hF0 hF1 hq1.2.1 hq1.2.2
            · exact hrec.2.1 blk hblk
          · intro blk _ b hb; cases hb
        · -- quantum does not fit: jump to the window end
          have hrec := ih wt [] (q :: qs) fat (by simp) (by simp [SepChain]) (by simp) hq hF0 hF1
          refine ⟨chained_mono (by omega) hrec.1, hrec.2.1, ?_⟩
          intro blk _ b hb; cases hb
      | cons b bs =>
        have hb1 := hse b (by simp)
        have hbs : t ≤ b.s := hts b (by simp)
        have hall : ∀ x ∈ bs, b.e ≤ x.s :=
          sepChain_all hchain hse
        have hchain' : SepChain bs := (List.chain'_cons'.mp hchain).2
        have hse' : ∀ x ∈ bs, x.s < x.e := fun x hx => hse x (List.mem_cons_of_mem _ hx)
        simp only [placeLoop]
        split_ifs with hwt hpop hfb hfit hqfit
        · exact ⟨trivial, by simp, by simp⟩
        · -- the cursor reached the busy interval: emit it verbatim
          have hbr := applyBreak_F_bounds cfg (b.e - b.s) fat hr hF0 hF1
          have hrec := ih b.e bs (q :: qs) (applyBreak cfg (b.e - b.s) fat)
            hall hchain' hse' hq hbr.1 hbr.2
          refine ⟨⟨hbs, hb1, hrec.1⟩, ?_, ?_⟩
          · intro blk hblk
            rcases List.mem_cons.mp hblk with hblk | hblk
            · subst hblk; exact goodBlock_mkBusy hE hF0 hF1
            · exact hrec.2.1 blk hblk
          · intro blk hblk bu hbu
            rcases List.mem_cons.mp hblk with hblk | hblk
            · subst hblk
              rcases List.mem_cons.mp hbu with hbu | hbu
              · subst hbu
                exact Or.inl ⟨rfl, rfl, rfl, rfl, rfl⟩
              · exact Or.inr (Or.inl (hall bu hbu))
            · rcases List.mem_cons.mp hbu with hbu | hbu
              · subst hbu
                have := chained_start hrec.1 blk hblk
                exact Or.inr (Or.inr this)
              · exact hrec.2.2 blk hblk bu hbu
        · -- forced break fits before the busy interval
          have hbr := applyBreak_F_bounds cfg (breakLen cfg fat) fat hr hF0 hF1
          have hbd := breakLen_pos cfg fat hsb hlb
          have hts' : ∀ x ∈ b :: bs, t + breakLen cfg fat ≤ x.s := by
            intro x hx
            rcases List.mem_cons.mp hx with hx | hx
            · subst hx; exact hfit
            · have := hall x hx; omega
          have hrec := ih (t + breakLen cfg fat) (b :: bs) (q :: qs)
            (applyBreak cfg (breakLen cfg fat) fat) hts' hchain hse hq hbr.1 hbr.2
          refine ⟨⟨le_refl t, by simp [mkBreakBlock]; omega, ?_⟩, ?_, ?_⟩
          · exact hrec.1
          · intro blk hblk
            rcases List.mem_cons.mp hblk with hblk | hblk
            · subst hblk; exact goodBlock_mkBreak hE hF0 hF1
            · exact hrec.2.1 blk hblk
          · intro blk hblk bu hbu
            rcases List.mem_cons.mp hblk with hblk | hblk
            · subst hblk
              refine Or.inr (Or.inl ?_)
              show t + breakLen cfg fat ≤ bu.s
              exact hts' bu hbu
            · exact hrec.2.2 blk hblk bu hbu
        · -- forced break does not fit: jump to the busy start
          have hts' : ∀ x ∈ b :: bs, b.s ≤ x.s := by
            intro x hx
            rcases List.mem_cons.mp hx with hx | hx
            · subst hx; exact le_refl _
            · have := hall x hx; omega
          have hrec := ih b.s (b :: bs) (q :: qs) fat hts' hchain hse hq hF0 hF1
          exact ⟨chained_mono (by omega) hrec.1, hrec.2.1, hrec.2.2⟩
        · -- quantum fits before the busy interval
          have hwk := applyWork_F_bounds cfg q.load q.len fat
          have hts' : ∀ x ∈ b :: bs, t + q.len ≤ x.s := by
            intro x hx
            rcases List.mem_cons.mp hx with hx | hx
            · subst hx; exact hqfit
            · have := hall x hx; omega
          have hrec := ih (t + q.len) (b :: bs) qs (applyWork cfg q.load q.len fat)
            hts' hchain hse hqs hwk.1 hwk.2
          refine ⟨⟨le_refl t, by simp [mkWorkBlock]; omega, ?_⟩, ?_, ?_⟩
          · exact hrec.1
          · intro blk hblk
            rcases List.mem_cons.mp hblk with hblk | hblk
            · subst hblk; exact goodBlock_mkWork hE hF0 hF1 hq1.2.1 hq1.2.2
            · exact hrec.2.1 blk hblk
          · intro blk hblk bu hbu
            rcases List.mem_cons.mp hblk with hblk | hblk
            · subst hblk
              refine Or.inr (Or.inl ?_)
              show t + q.len ≤ bu.s
              exact hts' bu hbu
            · exact hrec.2.2 blk hblk bu hbu
        · -- quantum does not fit: jump to the busy start
          have hts' : ∀ x ∈ b :: bs, b.s ≤ x.s := by
            intro x hx
            rcases List.mem_cons.mp hx with hx | hx
            · subst hx; exact le_refl _
            · have := hall x hx; omega
          have hrec := ih b.s (b :: bs) (q :: qs) fat hts' hchain hse hq hF0 hF1
          exact ⟨chained_mono (by omega) hrec.1, hrec.2.1, hrec.2.2⟩

theorem busyOf_spec (req : ScheduleRequest) (wf wt : Nat) :
    SepChain (busyOf req wf wt) ∧ ∀ x ∈ busyOf req wf wt, GoodBusy wf wt x :=
  normalizeBusy_spec wf wt _

theorem engineQuanta_facts (cfg : Config) (req : ScheduleRequest)
    (hqm : 1 ≤ cfg.quantum_min) :
    ∀ x ∈ (applyStressCap cfg req.stress_level (sortedQueue cfg req)).1.flatMap (quantaOf cfg),
      1 ≤ x.len ∧ 0 ≤ x.load ∧ x.load ≤ 10 := by
  intro x hx
  rw [List.mem_flatMap] at hx
  rcases hx with ⟨p, hp, hxq⟩
  unfold quantaOf at hxq
  rw [List.mem_replicate] at hxq
  rcases hxq with ⟨-, rfl⟩
  refine ⟨hqm, ?_, ?_⟩ <;>
  · have hp' : p ∈ sortedQueue cfg req := hp
    rw [sortedQueue, mem_sortTasks] at hp'
    unfold taskLoads at hp'
    rcases List.mem_map.mp hp' with ⟨tk, -, rfl⟩
    have := estimateLoad_bounds cfg req.lectures_today tk
    tauto

theorem buildPlan_master (cfg : Config) (req : ScheduleRequest) (wf wt : Nat)
    (hqm : 1 ≤ cfg.quantum_min) (hsb : 1 ≤ cfg.short_break_duration)
    (hlb : 1 ≤ cfg.long_break_duration) (hr : 0 ≤ cfg.break_recovery_factor) :
    Chained wf (buildPlan cfg req wf wt).blocks ∧
      (∀ blk ∈ (buildPlan cfg req wf wt).blocks, GoodBlock blk) ∧
      (∀ blk ∈ (buildPlan cfg req wf wt).blocks,
        ∀ b ∈ busyOf req wf wt, ExactBusy blk b ∨ DisjBusy blk b) := by
  have hbusy := busyOf_spec req wf wt
  have hq := engineQuanta_facts cfg req hqm
  have h := placeLoop_master cfg (energyAt cfg req) wt hsb hlb hr
    (fun u => energyAt_bounds cfg req u)
    (wt + (busyOf req wf wt).length +
      ((applyStressCap cfg req.stress_level (sortedQueue cfg req)).1.flatMap (quantaOf cfg)).length + 1)
    wf (busyOf req wf wt)
    ((applyStressCap cfg req.stress_level (sortedQueue cfg req)).1.flatMap (quantaOf cfg))
    ⟨0, 0, 0⟩
    (fun b hb => (hbusy.2 b hb).1) hbusy.1 (fun b hb => (hbusy.2 b hb).2.1)
    hq (le_refl 0) (by norm_num)
  exact h

theorem engine_ok_cases {cfg : Config} {req : ScheduleRequest} {plan : Plan}
    (h : scheduleEngine cfg req = .ok plan) :
    (req.tasks = [] ∧ plan = emptyPlan) ∨
      ∃ wf wt, parseHHMM req.available_from = some wf ∧
        parseHHMM req.available_to = some wt ∧ wf < wt ∧
        plan = buildPlan cfg req wf wt := by
  unfold scheduleEngine at h
  cases hf : parseHHMM req.available_from with
  | none => rw [hf] at h; cases h
  | some wf =>
    cases ht : parseHHMM req.available_to with
    | none => rw [hf, ht] at h; cases h
    | some wt =>
      rw [hf, ht] at h
      dsimp only at h
      split_ifs at h with h1 h2 h3 h4
      all_goals first
        | (left
           injection h with h
           exact ⟨by simpa using h3, h.symm⟩)
        | (right
           injection h with h
           exact ⟨wf, wt, rfl, rfl, by omega, h.symm⟩)

/-- C1: for every plan produced by the scheduler, the emitted blocks are
strictly ordered in time and pairwise non-overlapping - every block has
start before end, and each block starts no earlier than the previous block
ends. Stated for any configuration with a positive quantum, positive break
durations, and a nonnegative recovery factor. -/
theorem blocks_strictly_ordered (cfg : Config) (req : ScheduleRequest) (plan : Plan)
    (hqm : 1 ≤ cfg.quantum_min) (hsb : 1 ≤ cfg.short_break_duration)
    (hlb : 1 ≤ cfg.long_break_duration) (hr : 0 ≤ cfg.break_recovery_factor)
    (hok : scheduleEngine cfg req = .ok plan) :
    (∀ blk ∈ plan.blocks, blk.start_m < blk.end_m) ∧
      List.Chain' (fun a b => a.end_m ≤ b.start_m) plan.blocks := by
  rcases engine_ok_cases hok with ⟨-, rfl⟩ | ⟨wf, wt, -, -, -, rfl⟩
  · simp [emptyPlan]
  · exact chained_chain' (buildPlan_master cfg req wf wt hqm hsb hlb hr).1

/-- C2: every block in a produced plan has energy at start in [0,1], fatigue
at start in [0,1], cognitive load in [0,10], and every break block carries
cognitive load zero. -/
theorem block_values_in_range (cfg : Config) (req : ScheduleRequest) (plan : Plan)
    (hqm : 1 ≤ cfg.quantum_min) (hsb : 1 ≤ cfg.short_break_duration)
    (hlb : 1 ≤ cfg.long_break_duration) (hr : 0 ≤ cfg.break_recovery_factor)
    (hok : scheduleEngine cfg req = .ok plan) :
    ∀ blk ∈ plan.blocks,
      (0 ≤ blk.energy_at_start ∧ blk.energy_at_start ≤ 1) ∧
        (0 ≤ blk.fatigue_at_start ∧ blk.fatigue_at_start ≤ 1) ∧
        (0 ≤ blk.cognitive_load ∧ blk.cognitive_load ≤ 10) ∧
        (blk.is_break = true → blk.cognitive_load = 0) := by
  rcases engine_ok_cases hok with ⟨-, rfl⟩ | ⟨wf, wt, -, -, -, rfl⟩
  · simp [emptyPlan]
  · intro blk hblk
    have h := (buildPlan_master cfg req wf wt hqm hsb hlb hr).2.1 blk hblk
    rcases h with ⟨h1, h2, h3, h4, h5, h6, h7⟩
    exact ⟨⟨h1, h2⟩, ⟨h3, h4⟩, ⟨h5, h6⟩, h7⟩

/-- C8 (amended): every block of a produced plan either exactly covers one of
the normalized commitment or preferred-break intervals - as a break block with
zero load carrying the interval's label - or is disjoint from it; in
particular no work block overlaps a commitment interval. The unamended
guarantee that an in-window commitment always gets a covering block fails:
the commitment may be absent when placement never reaches it. -/
theorem commitment_blocks_exact_or_disjoint (cfg : Config) (req : ScheduleRequest)
    (plan : Plan) (wf wt : Nat)
    (hqm : 1 ≤ cfg.quantum_min) (hsb : 1 ≤ cfg.short_break_duration)
    (hlb : 1 ≤ cfg.long_break_duration) (hr : 0 ≤ cfg.break_recovery_factor)
    (hok : scheduleEngine cfg req = .ok plan)
    (hwf : parseHHMM req.available_from = some wf)
    (hwt : parseHHMM req.available_to = some wt) :
    ∀ blk ∈ plan.blocks, ∀ b ∈ busyOf req wf wt,
      ExactBusy blk b ∨ DisjBusy blk b := by
  rcases engine_ok_cases hok with ⟨-, rfl⟩ | ⟨wf', wt', hf', ht', -, rfl⟩
  · simp [emptyPlan]
  · rw [hwf] at hf'
    injection hf' with hf'
    rw [hwt] at ht'
    injection ht' with ht'
    subst hf'
    subst ht'
    exact (buildPlan_master cfg req wf wt hqm hsb hlb hr).2.2

/-- C8 counterexample: with the commitment 10:00-11:00 Lecture lying strictly
inside the 09:00-14:00 window, the engine still produces a plan with an empty
block list (the spec's zero-tasks policy), so no block exactly covers the
commitment interval, contradicting the claim as stated. -/
theorem commitment_cover_counterexample :
    parseCommitment "10:00-11:00 Lecture" = some ⟨600, 660, "Lecture"⟩ ∧
      parseHHMM reqNoTasks.available_from = some 540 ∧
      parseHHMM reqNoTasks.available_to = some 840 ∧
      (540 ≤ 600 ∧ 660 ≤ 840) ∧
      scheduleEngine defaultConfig reqNoTasks = .ok emptyPlan ∧
      (∀ blk ∈ emptyPlan.blocks, ¬(blk.start_m = 600 ∧ blk.end_m = 660)) := by
  refine ⟨rfl, rfl, rfl, by omega, rfl, ?_⟩
  intro blk hblk
  cases hblk

/-- C5: the engine fails with ErrInvalidWindow, producing no plan, exactly
when a window bound is malformed or available_from is at or after
available_to; on every well-formed non-empty window this error is never
raised (other validation may fail, but with different error kinds). -/
theorem invalid_window_iff (cfg : Config) (req : ScheduleRequest) :
    scheduleEngine cfg req = .error .invalidWindow ↔
      parseHHMM req.available_from = none ∨ parseHHMM req.available_to = none ∨
        ∃ wf wt, parseHHMM req.available_from = some wf ∧
          parseHHMM req.available_to = some wt ∧ wt ≤ wf := by
  unfold scheduleEngine
  cases hf : parseHHMM req.available_from with
  | none => simp
  | some wf =>
    cases ht : parseHHMM req.available_to with
    | none => simp
    | some wt =>
      dsimp only
      by_cases h1 : wt ≤ wf
      · rw [if_pos h1]
        simp [h1]
      · rw [if_neg h1]
        constructor
        · intro h
          split_ifs at h <;> simp at h
        · intro h
          rcases h with h | h | ⟨a, b, ha, hb, hab⟩
          · cases h
          · cases h
          · injection ha with ha
            injection hb with hb
            omega

/-- C4: under the stress cap (stress at or above the threshold), a task whose
estimated load exceeds the per-quantum cap is neither dropped nor deferred -
the queue handed to placement is exactly the sorted queue - and the plan's
warnings contain the tag naming that task. -/
theorem stress_cap_keeps_and_tags (cfg : Config) (req : ScheduleRequest)
    (plan : Plan) (t : Task) (l : ℚ)
    (hok : scheduleEngine cfg req = .ok plan)
    (hstress : cfg.stress_cap_threshold ≤ req.stress_level)
    (hmem : (t, l) ∈ sortedQueue cfg req)
    (hover : cfg.max_load_under_stress < l) :
    (applyStressCap cfg req.stress_level (sortedQueue cfg req)).1 = sortedQueue cfg req ∧
      stressTag t ∈ plan.warnings := by
  refine ⟨rfl, ?_⟩
  rcases engine_ok_cases hok with ⟨hempty, rfl⟩ | ⟨wf, wt, -, -, -, rfl⟩
  · rw [sortedQueue, mem_sortTasks] at hmem
    unfold taskLoads at hmem
    rw [hempty] at hmem
    cases hmem
  · simp only [buildPlan]
    refine List.mem_append.mpr (Or.inl (List.mem_append.mpr (Or.inr ?_)))
    unfold applyStressCap
    rw [if_pos hstress]
    exact List.mem_map.mpr ⟨(t, l), List.mem_filter.mpr ⟨hmem, by simpa using hover⟩, rfl⟩

/-- C3: the cognitive-load estimator returns the supplied load clamped to
[0,10] when present, and otherwise the clamped difficulty-times-category
weight plus lecture penalty formula, where the category weight falls back to
1.0 for categories absent from the weight table. -/
theorem estimateLoad_spec (cfg : Config) (lectures : Nat) (t : Task) :
    (∀ l, t.cognitive_load = some l → estimateLoad cfg lectures t = clampQ 0 10 l) ∧
      (t.cognitive_load = none →
        estimateLoad cfg lectures t =
          clampQ 0 10 (t.difficulty * categoryWeight t.category
            + (lectures : ℚ) * cfg.lecture_penalty_per)) ∧
      (t.category ∉ categoryWeightTable.map Prod.fst → categoryWeight t.category = 1) := by
  refine ⟨?_, ?_, ?_⟩
  · intro l hl
    unfold estimateLoad
    rw [hl]
  · intro hn
    unfold estimateLoad
    rw [hn]
  · intro hnot
    simp [categoryWeightTable] at hnot
    obtain ⟨n1, n2, n3, n4, n5⟩ := hnot
    have e1 : (t.category == "math") = false := beq_eq_false_iff_ne.mpr n1
    have e2 : (t.category == "programming") = false := beq_eq_false_iff_ne.mpr n2
    have e3 : (t.category == "science") = false := beq_eq_false_iff_ne.mpr n3
    have e4 : (t.category == "reading") = false := beq_eq_false_iff_ne.mpr n4
    have e5 : (t.category == "review") = false := beq_eq_false_iff_ne.mpr n5
    simp [categoryWeight, categoryWeightTable, List.lookup, e1, e2, e3, e4, e5]

/-- C6: after a recalibration step (one triggered on every 3rd appended TLX
entry), the two fatigue weights lie in [0.05, 0.60] and the force-break
threshold lies in [0.40, 0.90]; moreover, when the averaged mapped mental
demand and effort both exceed the 0.5 baseline and the previous weights were
inside their clamp ranges, the two fatigue weights do not decrease and the
force-break threshold does not increase. -/
theorem recalibration_bounds_and_monotone (st : RecalState) (e : TLXEntry)
    (htrig : (st.entries.length + 1) % 3 = 0) :
    ((1 : ℚ) / 20 ≤ (appendTLX st e).fatigue_consec_weight ∧
        (appendTLX st e).fatigue_consec_weight ≤ 3 / 5) ∧
      ((1 : ℚ) / 20 ≤ (appendTLX st e).fatigue_total_weight ∧
        (appendTLX st e).fatigue_total_weight ≤ 3 / 5) ∧
      ((2 : ℚ) / 5 ≤ (appendTLX st e).fatigue_force_break ∧
        (appendTLX st e).fatigue_force_break ≤ 9 / 10) ∧
      (st.fatigue_consec_weight ≤ 3 / 5 → st.fatigue_total_weight ≤ 3 / 5 →
        2 / 5 ≤ st.fatigue_force_break →
        1 / 2 < tlxAvgMd (st.entries ++ [e]) → 1 / 2 < tlxAvgEf (st.entries ++ [e]) →
        st.fatigue_consec_weight ≤ (appendTLX st e).fatigue_consec_weight ∧
          st.fatigue_total_weight ≤ (appendTLX st e).fatigue_total_weight ∧
          (appendTLX st e).fatigue_force_break ≤ st.fatigue_force_break) := by
  have hlen : (st.entries ++ [e]).length % 3 = 0 := by simpa using htrig
  simp only [appendTLX]
  rw [if_pos hlen]
  dsimp only
  refine ⟨⟨clampQ_lower _ _ _, clampQ_upper _ _ _ (by norm_num)⟩,
    ⟨clampQ_lower _ _ _, clampQ_upper _ _ _ (by norm_num)⟩,
    ⟨clampQ_lower _ _ _, clampQ_upper _ _ _ (by norm_num)⟩, ?_⟩
  intro hc ht hf hmd hef
  refine ⟨?_, ?_, ?_⟩
  · exact le_clampQ_of_le _ (by nlinarith) hc
  · exact le_clampQ_of_le _ (by nlinarith) ht
  · exact clampQ_le_of_le _ (by nlinarith) hf

/-- C7: a PUT /config request containing any key outside the known
configuration-key set returns status 400 and leaves the stored configuration
completely unchanged. -/
theorem put_config_unknown_key_rejected (c : Config) (updates : List (String × ℚ))
    (k : String) (v : ℚ) (hmem : (k, v) ∈ updates) (hunk : k ∉ knownConfigKeys) :
    putConfigHandler c updates = (400, c) := by
  unfold putConfigHandler
  rw [if_neg]
  intro hall
  rw [List.all_eq_true] at hall
  have h := hall (k, v) hmem
  exact hunk (by simpa using h)

/-- C9: the gamification level is determined from xp by the thresholds laid
out in the GamificationCard component - below 200 Student, from 200 Scholar,
from 600 Genius, from 1200 Mastermind. -/
theorem level_thresholds : ∀ xp : Nat,
    (xp < LEVEL_THRESHOLDS.getD 1 0 → levelFromXp xp = LEVEL_NAMES.getD 0 "") ∧
      (LEVEL_THRESHOLDS.getD 1 0 ≤ xp → xp < LEVEL_THRESHOLDS.getD 2 0 →
        levelFromXp xp = LEVEL_NAMES.getD 1 "") ∧
      (LEVEL_THRESHOLDS.getD 2 0 ≤ xp → xp < LEVEL_THRESHOLDS.getD 3 0 →
        levelFromXp xp = LEVEL_NAMES.getD 2 "") ∧
      (LEVEL_THRESHOLDS.getD 3 0 ≤ xp → levelFromXp xp = LEVEL_NAMES.getD 3 "") := by
  intro xp
  have h1 : LEVEL_THRESHOLDS.getD 1 0 = 200 := rfl
  have h2 : LEVEL_THRESHOLDS.getD 2 0 = 600 := rfl
  have h3 : LEVEL_THRESHOLDS.getD 3 0 = 1200 := rfl
  have n0 : LEVEL_NAMES.getD 0 "" = "Student" := rfl
  have n1 : LEVEL_NAMES.getD 1 "" = "Scholar" := rfl
  have n2 : LEVEL_NAMES.getD 2 "" = "Genius" := rfl
  have n3 : LEVEL_NAMES.getD 3 "" = "Mastermind" := rfl
  rw [h1, h2, h3, n0, n1, n2, n3]
  refine ⟨?_, ?_, ?_, ?_⟩ <;> intros <;> unfold levelFromXp <;>
    split_ifs <;> first | rfl | (exfalso; omega)

/-- C10: for every role the onboarding wizard supports, the profile emitted on
completion has lectures_today equal to the length of its final
daily_commitments list, and this overwrites any separately entered lecture
count - the resulting lectures_today does not depend on the lectures_today
the user had entered. -/
theorem onboarding_lectures_eq_commitments (p : WizProfile) (ch : String)
    (hrole : p.role = "student" ∨ p.role = "professional" ∨ p.role = "researcher") :
    (finalizeProfile p ch).lectures_today =
        (finalizeProfile p ch).daily_commitments.length ∧
      ∀ n, (finalizeProfile { p with lectures_today := n } ch).lectures_today =
        (finalizeProfile p ch).lectures_today := by
  rcases hrole with hr | hr | hr <;>
    simp only [finalizeProfile, hr] <;> split_ifs <;> simp_all

theorem blocks_strictly_ordered_witness :
    (∀ blk ∈ (buildPlan defaultConfig reqSample 540 1320).blocks,
        blk.start_m < blk.end_m) ∧
      List.Chain' (fun a b => a.end_m ≤ b.start_m)
        (buildPlan defaultConfig reqSample 540 1320).blocks :=
  blocks_strictly_ordered defaultConfig reqSample
    (buildPlan defaultConfig reqSample 540 1320)
    (by decide) (by decide) (by decide) (by decide) rfl

theorem block_values_in_range_witness :
    (buildPlan defaultConfig reqSample 540 1320).blocks ≠ [] ∧
      ∀ blk ∈ (buildPlan defaultConfig reqSample 540 1320).blocks,
        (0 ≤ blk.energy_at_start ∧ blk.energy_at_start ≤ 1) ∧
          (0 ≤ blk.fatigue_at_start ∧ blk.fatigue_at_start ≤ 1) ∧
          (0 ≤ blk.cognitive_load ∧ blk.cognitive_load ≤ 10) ∧
          (blk.is_break = true → blk.cognitive_load = 0) :=
  ⟨by decide,
   block_values_in_range defaultConfig reqSample
     (buildPlan defaultConfig reqSample 540 1320)
     (by decide) (by decide) (by decide) (by decide) rfl⟩

theorem commitment_blocks_exact_or_disjoint_witness :
    busyOf reqSample 540 1320 ≠ [] ∧
      ∀ blk ∈ (buildPlan defaultConfig reqSample 540 1320).blocks,
        ∀ b ∈ busyOf reqSample 540 1320, ExactBusy blk b ∨ DisjBusy blk b :=
  ⟨by decide,
   commitment_blocks_exact_or_disjoint defaultConfig reqSample
     (buildPlan defaultConfig reqSample 540 1320) 540 1320
     (by decide) (by decide) (by decide) (by decide) rfl rfl rfl⟩

theorem stress_cap_keeps_and_tags_witness :
    (applyStressCap defaultConfig reqStress.stress_level
        (sortedQueue defaultConfig reqStress)).1 = sortedQueue defaultConfig reqStress ∧
      stressTag ⟨"Hard Task", "math", 9, 60, some 9⟩ ∈
        (buildPlan defaultConfig reqStress 540 1320).warnings :=
  stress_cap_keeps_and_tags defaultConfig reqStress
    (buildPlan defaultConfig reqStress 540 1320)
    ⟨"Hard Task", "math", 9, 60, some 9⟩ 9
    rfl (by decide) (by decide) (by decide)

theorem estimateLoad_spec_witness :
    estimateLoad defaultConfig 2 taskNoLoad =
        clampQ 0 10 (taskNoLoad.difficulty * categoryWeight taskNoLoad.category
          + ((2 : Nat) : ℚ) * defaultConfig.lecture_penalty_per) ∧
      categoryWeight taskNoLoad.category = 1 :=
  ⟨(estimateLoad_spec defaultConfig 2 taskNoLoad).2.1 rfl,
   (estimateLoad_spec defaultConfig 2 taskNoLoad).2.2 (by decide)⟩

theorem recalibration_witness :
    (((1 : ℚ) / 20 ≤ (appendTLX tlxSt0 ⟨0, 5, 5⟩).fatigue_consec_weight ∧
        (appendTLX tlxSt0 ⟨0, 5, 5⟩).fatigue_consec_weight ≤ 3 / 5) ∧
      ((2 : ℚ) / 5 ≤ (appendTLX tlxSt0 ⟨0, 5, 5⟩).fatigue_force_break ∧
        (appendTLX tlxSt0 ⟨0, 5, 5⟩).fatigue_force_break ≤ 9 / 10)) ∧
      (tlxSt0.fatigue_consec_weight ≤ (appendTLX tlxSt0 ⟨0, 5, 5⟩).fatigue_consec_weight ∧
        tlxSt0.fatigue_total_weight ≤ (appendTLX tlxSt0 ⟨0, 5, 5⟩).fatigue_total_weight ∧
        (appendTLX tlxSt0 ⟨0, 5, 5⟩).fatigue_force_break ≤ tlxSt0.fatigue_force_break) := by
  have h := recalibration_bounds_and_monotone tlxSt0 ⟨0, 5, 5⟩ (by decide)
  exact ⟨⟨h.1, h.2.2.1⟩,
    h.2.2.2 (by decide) (by decide) (by decide) (by decide) (by decide)⟩

theorem put_config_witness :
    putConfigHandler defaultConfig [("bogus_key", (99 : ℚ))] = (400, defaultConfig) :=
  put_config_unknown_key_rejected defaultConfig [("bogus_key", (99 : ℚ))]
    "bogus_key" 99 (by decide) (by decide)

theorem level_thresholds_witness :
    levelFromXp 250 = LEVEL_NAMES.getD 1 "" ∧
      levelFromXp 1300 = LEVEL_NAMES.getD 3 "" :=
  ⟨(level_thresholds 250).2.1 (by decide) (by decide),
   (level_thresholds 1300).2.2.2 (by decide)⟩

theorem onboarding_lectures_eq_commitments_witness :
    (finalizeProfile wizSample "09:00-15:00").lectures_today =
        (finalizeProfile wizSample "09:00-15:00").daily_commitments.length ∧
      (finalizeProfile { wizSample with lectures_today := 99 } "09:00-15:00").lectures_today =
        (finalizeProfile wizSample "09:00-15:00").lectures_today :=
  ⟨(onboarding_lectures_eq_commitments wizSample "09:00-15:00" (Or.inl rfl)).1,
   (onboarding_lectures_eq_commitments wizSample "09:00-15:00" (Or.inl rfl)).2 99⟩

end CogScheduler
